import Mathlib

/-!
Verification of the bagging-ensemble specification against the notebook
`src/5-week5/2-ensemble-methods-bagging.ipynb`.

The notebook itself contains one piece of executable arithmetic authored in the
repository (the coin-toss law-of-large-numbers demonstration); the bagging
ensemble itself is delegated to a library, so the `BaggingEnsemble` component
(`Train`, `Predict`, `ComputeOutOfBagScore`) is modelled here from the
specification text and the claims are settled against that model.
-/

namespace CoinToss

/-- The heads probability used by the notebook (`heads_proba = 0.51`). -/
def headsProba : ℚ := 51 / 100

/-- One simulated toss: `(np.random.rand(...) < heads_proba).astype(np.int32)`.
`r t j` models the uniform random draw at row `t`, column `j`; the entry is `1`
when the draw is below the heads probability and `0` otherwise. -/
def coinToss (r : ℕ → ℕ → ℚ) (t j : ℕ) : ℕ :=
  if r t j < headsProba then 1 else 0

/-- Embeds `cumulative_heads = coin_tosses.cumsum(axis=0)`: entry `(t, j)` is
the number of heads among the first `t + 1` tosses of column `j`. -/
def cumulativeHeads (r : ℕ → ℕ → ℚ) (t j : ℕ) : ℕ :=
  ∑ s ∈ Finset.range (t + 1), coinToss r s j

/-- Embeds `cumulative_heads_ratio = cumulative_heads / np.arange(1, 10001).reshape(-1, 1)`:
entry `(t, j)` divides the cumulative head count by the number of tosses `t + 1`. -/
def cumulativeHeadsRatio (r : ℕ → ℕ → ℚ) (t j : ℕ) : ℚ :=
  (cumulativeHeads r t j : ℚ) / (t + 1)

end CoinToss

namespace Bagging

/-- Modelled from the spec: the fatal error raised by `Train` when `K < 1`,
`sampleSize < 1`, or the dataset is empty. -/
inductive ConfigurationError where
  | invalidConfig
  deriving DecidableEq, Repr

/-- Modelled from the spec: the seeded pseudorandom source backing bootstrap
draws, realised as a linear congruential step so that runs are reproducible. -/
def lcgNext (s : ℕ) : ℕ := (s * 1103515245 + 12345) % 2 ^ 31

/-- Modelled from the spec: `BootstrapSample_i` — a multiset of indices into the
dataset of size `size`, drawn with replacement from `n` rows; predictor `i`
derives its reproducible sub-stream from the seed and the predictor index. -/
def bootstrapSample (n size seed i : ℕ) : List ℕ :=
  (List.range size).map fun k => lcgNext^[i * size + k + 1] seed % n

/-- Modelled from the spec: the rows of the dataset indexed by a bootstrap
sample, the data each predictor is fitted on. -/
def rowsOf (dataset : List (α × β)) (sample : List ℕ) : List (α × β) :=
  sample.filterMap fun i => dataset.get? i

/-- An ensemble owns an ordered collection of (Predictor, BootstrapSample)
pairs; a fitted predictor is its prediction function. -/
abbrev Ensemble (α β : Type) : Type := List ((α → β) × List ℕ)

/-- Modelled from the spec: `Train(dataset, K, sampleSize, baseModelFactory,
randomSeed)`. Fails with `ConfigurationError` if `K < 1`, `sampleSize < 1`, or
the dataset is empty; otherwise, for each `i` in `1..K`, draws a bootstrap
sample and fits a fresh predictor from the factory on the sampled rows. -/
def Train (dataset : List (α × β)) (K sampleSize : ℕ)
    (factory : List (α × β) → α → β) (seed : ℕ) :
    Except ConfigurationError (Ensemble α β) :=
  if K < 1 ∨ sampleSize < 1 ∨ dataset.length < 1 then
    .error .invalidConfig
  else
    .ok <| (List.range K).map fun i =>
      (factory (rowsOf dataset (bootstrapSample dataset.length sampleSize seed i)),
       bootstrapSample dataset.length sampleSize seed i)

/-- The bootstrap sample index sets of a training result, when it succeeded. -/
def sampleSets (r : Except ConfigurationError (Ensemble α β)) :
    Option (List (List ℕ)) :=
  match r with
  | .error _ => none
  | .ok e => some (e.map Prod.snd)

/-- The number of label occurrences among a list of votes. -/
def countLabel [DecidableEq β] (votes : List β) (b : β) : ℕ :=
  (votes.filter fun v => decide (v = b)).length

/-- One step of the plurality-vote reduction: keep the current best label
unless the challenger has a strictly larger vote count, or an equal count and a
strictly smaller label (the documented lowest-label tie-break). -/
def voteStep [LinearOrder β] (votes : List β) (acc : Option β) (v : β) :
    Option β :=
  match acc with
  | none => some v
  | some b =>
      if countLabel votes b < countLabel votes v ∨
          (countLabel votes v = countLabel votes b ∧ v < b) then some v
      else some b

/-- Modelled from the spec: the statistical mode (most frequent label) of a
list of votes, ties broken toward the lowest label, computed by a single-pass
reduction; `none` only on an empty vote list. -/
def pluralityVote [LinearOrder β] (votes : List β) : Option β :=
  votes.foldl (voteStep votes) none

/-- The individual label predictions of the ensemble members at an instance. -/
def votesAt (e : Ensemble α β) (x : α) : List β :=
  e.map fun p => p.1 x

/-- Modelled from the spec: `Predict(instance)` in classification mode —
collect one label from each predictor and return the statistical mode. -/
def PredictClassify [LinearOrder β] (e : Ensemble α β) (x : α) : Option β :=
  pluralityVote (votesAt e x)

/-- Modelled from the spec: `Predict(instance)` in regression mode — the
arithmetic mean of the K predictors' numeric outputs, accumulated by a fold. -/
def PredictRegress (e : Ensemble α ℚ) (x : α) : ℚ :=
  ((votesAt e x).foldl (· + ·) 0) / e.length

/-- Modelled from the spec: the predictors for which row index `r` is
out-of-bag, i.e. `r` is not in that predictor's bootstrap sample. -/
def oobPredictors (e : Ensemble α β) (r : ℕ) : List (α → β) :=
  (e.filter fun p => decide (r ∉ p.2)).map Prod.fst

/-- The result of out-of-bag scoring: the score over the rows that had at
least one out-of-bag predictor (`none` when every row was skipped), plus the
count of skipped rows reported to the caller. -/
structure OOBResult where
  score : Option ℚ
  skipped : ℕ
  deriving DecidableEq, Repr

/-- The aggregated out-of-bag prediction for a row: the plurality vote of the
row's out-of-bag predictors evaluated at the row's features. -/
def oobAggregate [LinearOrder β] (e : Ensemble α β) (r : ℕ × (α × β)) :
    Option β :=
  pluralityVote ((oobPredictors e r.1).map fun m => m r.2.1)

/-- Modelled from the spec: the per-row contribution to the classification
out-of-bag score — `none` when the row has no out-of-bag predictor (the row is
skipped), otherwise `1` or `0` as the aggregated out-of-bag vote matches the
row's true label. -/
def classRowScore [LinearOrder β] (e : Ensemble α β) (r : ℕ × (α × β)) :
    Option ℚ :=
  if (oobPredictors e r.1).isEmpty then none
  else if oobAggregate e r = some r.2.2 then some 1 else some 0

/-- The mean out-of-bag prediction for a regression row, accumulated by a
fold. -/
def oobRegMean (e : Ensemble α ℚ) (r : ℕ × (α × ℚ)) : ℚ :=
  ((oobPredictors e r.1).map fun m => m r.2.1).foldl (· + ·) 0 /
    (oobPredictors e r.1).length

/-- Modelled from the spec: the per-row contribution to the regression
out-of-bag score — `none` when the row has no out-of-bag predictor, otherwise
the absolute error of the mean out-of-bag prediction against the true value. -/
def regRowScore (e : Ensemble α ℚ) (r : ℕ × (α × ℚ)) : Option ℚ :=
  if (oobPredictors e r.1).isEmpty then none
  else some |oobRegMean e r - r.2.2|

/-- The accumulation pass of out-of-bag scoring: total of the per-row scores,
count of scored rows, and count of skipped rows. -/
def oobAccum (rowScore : ℕ × (α × β) → Option ℚ) :
    List (ℕ × (α × β)) → ℚ × ℕ × ℕ
  | [] => (0, 0, 0)
  | r :: rest =>
      let acc := oobAccum rowScore rest
      match rowScore r with
      | none => (acc.1, acc.2.1, acc.2.2 + 1)
      | some q => (q + acc.1, acc.2.1 + 1, acc.2.2)

/-- Modelled from the spec: `ComputeOutOfBagScore(dataset)` for
classification — rows with no out-of-bag predictor are skipped and counted;
the score is the accuracy over the remaining rows. -/
def ComputeOutOfBagScore [LinearOrder β] (e : Ensemble α β)
    (dataset : List (α × β)) : OOBResult :=
  let acc := oobAccum (classRowScore e) dataset.enum
  { score := if acc.2.1 = 0 then none else some (acc.1 / acc.2.1),
    skipped := acc.2.2 }

/-- Modelled from the spec: `ComputeOutOfBagScore(dataset)` for regression —
rows with no out-of-bag predictor are skipped and counted; the score is the
mean error over the remaining rows. -/
def ComputeOutOfBagScoreReg (e : Ensemble α ℚ) (dataset : List (α × ℚ)) :
    OOBResult :=
  let acc := oobAccum (regRowScore e) dataset.enum
  { score := if acc.2.1 = 0 then none else some (acc.1 / acc.2.1),
    skipped := acc.2.2 }

/-- The rows of an indexed dataset whose out-of-bag predictor subset is
empty — the rows the documented policy skips. -/
def oobSkippedRows (e : Ensemble α β) (dataset : List (α × β)) :
    List (ℕ × (α × β)) :=
  dataset.enum.filter fun r => (oobPredictors e r.1).isEmpty

/-- The rows of an indexed dataset with at least one out-of-bag predictor —
the only rows that enter the out-of-bag average. -/
def oobScoredRows (e : Ensemble α β) (dataset : List (α × β)) :
    List (ℕ × (α × β)) :=
  dataset.enum.filter fun r => !(oobPredictors e r.1).isEmpty

/-- The scored rows whose aggregated out-of-bag vote equals the true label. -/
def oobCorrectRows [LinearOrder β] (e : Ensemble α β) (dataset : List (α × β)) :
    List (ℕ × (α × β)) :=
  (oobScoredRows e dataset).filter fun r =>
    decide (oobAggregate e r = some r.2.2)

/-- The left vote dominates the right one in the plurality order: it has a
strictly larger count, or an equal count and a smaller-or-equal label (the
lowest-label tie-break). -/
def Dominates [LinearOrder β] (votes : List β) (b v : β) : Prop :=
  countLabel votes v < countLabel votes b ∨
    (countLabel votes v = countLabel votes b ∧ b ≤ v)

/-- A small concrete classification ensemble exercising the prediction
theorems: three constant predictors voting 0, 1, 0. -/
def exampleClassEnsemble : Ensemble ℕ ℕ :=
  [(fun _ => 0, [0]), (fun _ => 1, [0]), (fun _ => 0, [0])]

/-- A small concrete regression ensemble: two constant predictors 1 and 2. -/
def exampleRegEnsemble : Ensemble ℕ ℚ :=
  [(fun _ => 1, [0]), (fun _ => 2, [0])]

/-- A concrete ensemble whose four predictors vote 0, 0, 1, 1 — the tied
[A, A, B, B] vote of the tie-break scenario. -/
def exampleTieEnsemble : Ensemble ℕ ℕ :=
  [(fun _ => 0, [0]), (fun _ => 0, [1]), (fun _ => 1, [0]), (fun _ => 1, [1])]

/-- The two-row training dataset the tie-break scenario is scored against. -/
def exampleDataset : List (ℕ × ℕ) := [(0, 0), (1, 1)]

/-- Modelled from the spec: the number of ways to draw a bootstrap sample of
size `n` from `n` items (with replacement, order significant) that never draws
the fixed index `j`. -/
def excludedCount (n : ℕ) (j : Fin n) : ℕ :=
  (Finset.univ.filter fun f : Fin n → Fin n => ∀ k, f k ≠ j).card

/-- Modelled from the spec: the probability, under uniform drawing with
replacement, that the fixed index `j` never enters a bootstrap sample of size
`n` taken from `n` items. -/
def excludedProb (n : ℕ) (j : Fin n) : ℚ :=
  (excludedCount n j : ℚ) / (n ^ n : ℚ)

end Bagging

namespace CoinToss

theorem coinToss_le_one (r : ℕ → ℕ → ℚ) (t j : ℕ) : coinToss r t j ≤ 1 := by
  unfold coinToss
  split <;> simp

theorem cumulativeHeads_le (r : ℕ → ℕ → ℚ) (t j : ℕ) :
    cumulativeHeads r t j ≤ t + 1 := by
  unfold cumulativeHeads
  calc ∑ s ∈ Finset.range (t + 1), coinToss r s j
      ≤ ∑ _s ∈ Finset.range (t + 1), 1 :=
        Finset.sum_le_sum fun s _ => coinToss_le_one r s j
    _ = t + 1 := by simp

/-- C10: every entry of `cumulative_heads_ratio` lies in the closed interval
`[0, 1]` — row `t` holds, per column, the number of heads among the first
`t + 1` tosses divided by `t + 1`, a count that never exceeds the number of
tosses. -/
theorem cumulativeHeadsRatio_mem_unit_interval (r : ℕ → ℕ → ℚ) (t j : ℕ) :
    0 ≤ cumulativeHeadsRatio r t j ∧ cumulativeHeadsRatio r t j ≤ 1 := by
  constructor
  · exact div_nonneg (by positivity) (by positivity)
  · rw [cumulativeHeadsRatio, div_le_one (by positivity)]
    exact_mod_cast cumulativeHeads_le r t j

end CoinToss

namespace Bagging

theorem bootstrapSample_length (n size seed i : ℕ) :
    (bootstrapSample n size seed i).length = size := by
  simp [bootstrapSample]

theorem bootstrapSample_mem_lt (n size seed i : ℕ) (hn : 0 < n) :
    ∀ x ∈ bootstrapSample n size seed i, x < n := by
  intro x hx
  simp only [bootstrapSample, List.mem_map] at hx
  obtain ⟨k, -, rfl⟩ := hx
  exact Nat.mod_lt _ hn

/-- C4: `Train` fails with `ConfigurationError` exactly when `K < 1`, or
`sampleSize < 1`, or the dataset is empty; on failure only the error is
returned, so no partial ensemble state is retained. -/
theorem Train_configurationError_iff (dataset : List (α × β))
    (K sampleSize : ℕ) (factory : List (α × β) → α → β) (seed : ℕ) :
    Train dataset K sampleSize factory seed =
        .error ConfigurationError.invalidConfig ↔
      K < 1 ∨ sampleSize < 1 ∨ dataset = [] := by
  have hlen : dataset.length < 1 ↔ dataset = [] := by
    rw [Nat.lt_one_iff, List.length_eq_zero]
  unfold Train
  split
  · rename_i h
    rw [hlen] at h
    exact iff_of_true rfl h
  · rename_i h
    rw [hlen] at h
    exact iff_of_false (by simp) h

/-- C3: two calls of `Train` with the same seed, dataset, `K` and `sampleSize`
produce identical bootstrap sample index sets — even across different base
model factories, the drawn index sets coincide, so training is a deterministic
function of seed, dataset, `K` and `sampleSize`. -/
theorem Train_deterministic_sampleSets (dataset : List (α × β))
    (K sampleSize seed : ℕ) (f g : List (α × β) → α → β) :
    sampleSets (Train dataset K sampleSize f seed) =
      sampleSets (Train dataset K sampleSize g seed) := by
  unfold Train
  split
  · rfl
  · simp [sampleSets, List.map_map, Function.comp]

/-- C2: for `K ≥ 1` and `sampleSize ≥ 1` on a non-empty dataset, `Train`
succeeds with an ensemble of exactly `K` (Predictor, BootstrapSample) pairs,
each sample of size `sampleSize` drawn with replacement from the dataset's
index range, and each predictor fitted by the factory on exactly the rows of
its own sample. -/
theorem Train_produces_K_pairs (dataset : List (α × β)) (K sampleSize : ℕ)
    (factory : List (α × β) → α → β) (seed : ℕ)
    (hK : 1 ≤ K) (hs : 1 ≤ sampleSize) (hd : dataset ≠ []) :
    ∃ e : Ensemble α β, Train dataset K sampleSize factory seed = .ok e ∧
      e.length = K ∧
      ∀ p ∈ e, p.2.length = sampleSize ∧ (∀ i ∈ p.2, i < dataset.length) ∧
        p.1 = factory (rowsOf dataset p.2) := by
  have hpos : 0 < dataset.length := List.length_pos.mpr hd
  have hcond : ¬(K < 1 ∨ sampleSize < 1 ∨ dataset.length < 1) := by
    push_neg
    exact ⟨hK, hs, hpos⟩
  refine ⟨_, by rw [Train, if_neg hcond], by simp, ?_⟩
  intro p hp
  simp only [List.mem_map, List.mem_range] at hp
  obtain ⟨i, -, rfl⟩ := hp
  exact ⟨bootstrapSample_length _ _ _ _,
    bootstrapSample_mem_lt _ _ _ _ hpos, rfl⟩

theorem Train_produces_K_pairs_witness :
    ∃ e : Ensemble ℚ ℕ,
      Train [((0 : ℚ), (0 : ℕ))] 2 3 (fun _ _ => 0) 5 = .ok e ∧
      e.length = 2 ∧
      ∀ p ∈ e, p.2.length = 3 ∧ (∀ i ∈ p.2, i < [((0 : ℚ), (0 : ℕ))].length) ∧
        p.1 = (fun _ _ => 0 : List (ℚ × ℕ) → ℚ → ℕ) (rowsOf [((0 : ℚ), (0 : ℕ))] p.2) :=
  Train_produces_K_pairs [((0 : ℚ), (0 : ℕ))] 2 3 (fun _ _ => 0) 5
    (by decide) (by decide) (by decide)

theorem dominates_refl [LinearOrder β] (votes : List β) (b : β) :
    Dominates votes b b :=
  Or.inr ⟨rfl, le_refl b⟩

theorem dominates_trans [LinearOrder β] (votes : List β) {a b c : β}
    (h1 : Dominates votes a b) (h2 : Dominates votes b c) :
    Dominates votes a c := by
  rcases h1 with h1 | ⟨h1, h1le⟩ <;> rcases h2 with h2 | ⟨h2, h2le⟩
  · exact Or.inl (h2.trans h1)
  · exact Or.inl (h2 ▸ h1)
  · exact Or.inl (h1 ▸ h2)
  · exact Or.inr ⟨h2.trans h1, h1le.trans h2le⟩

theorem voteStep_cases [LinearOrder β] (votes : List β) (b v : β) :
    (voteStep votes (some b) v = some b ∧ Dominates votes b v) ∨
      (voteStep votes (some b) v = some v ∧ Dominates votes v b) := by
  have hstep : voteStep votes (some b) v =
      if countLabel votes b < countLabel votes v ∨
          (countLabel votes v = countLabel votes b ∧ v < b) then some v
      else some b := rfl
  rw [hstep]
  split
  · rename_i h
    rcases h with h | ⟨h1, h2⟩
    · exact Or.inr ⟨rfl, Or.inl h⟩
    · exact Or.inr ⟨rfl, Or.inr ⟨h1.symm, h2.le⟩⟩
  · rename_i h
    push_neg at h
    obtain ⟨hle, htie⟩ := h
    rcases lt_or_eq_of_le hle with hlt | heq
    · exact Or.inl ⟨rfl, Or.inl hlt⟩
    · exact Or.inl ⟨rfl, Or.inr ⟨heq, htie heq⟩⟩

theorem foldl_voteStep_from_some [LinearOrder β] (votes l : List β) :
    ∀ b : β, ∃ c, l.foldl (voteStep votes) (some b) = some c ∧
      c ∈ b :: l ∧ Dominates votes c b ∧ ∀ v ∈ l, Dominates votes c v := by
  induction l with
  | nil =>
      intro b
      exact ⟨b, rfl, List.mem_cons_self b [], dominates_refl votes b, by simp⟩
  | cons v l ih =>
      intro b
      rcases voteStep_cases votes b v with ⟨hstep, hdom⟩ | ⟨hstep, hdom⟩
      · obtain ⟨c, hc, hmem, hcb, hall⟩ := ih b
        refine ⟨c, by rw [List.foldl_cons, hstep]; exact hc, ?_, hcb, ?_⟩
        · rcases List.mem_cons.mp hmem with rfl | hmem
          · exact List.mem_cons_self _ _
          · exact List.mem_cons_of_mem _ (List.mem_cons_of_mem _ hmem)
        · intro w hw
          rcases List.mem_cons.mp hw with rfl | hw
          · exact dominates_trans votes hcb hdom
          · exact hall w hw
      · obtain ⟨c, hc, hmem, hcv, hall⟩ := ih v
        refine ⟨c, by rw [List.foldl_cons, hstep]; exact hc, ?_,
          dominates_trans votes hcv hdom, ?_⟩
        · rcases List.mem_cons.mp hmem with rfl | hmem
          · exact List.mem_cons_of_mem _ (List.mem_cons_self _ _)
          · exact List.mem_cons_of_mem _ (List.mem_cons_of_mem _ hmem)
        · intro w hw
          rcases List.mem_cons.mp hw with rfl | hw
          · exact hcv
          · exact hall w hw

theorem pluralityVote_spec [LinearOrder β] (votes : List β)
    (hne : votes ≠ []) :
    ∃ c, pluralityVote votes = some c ∧ c ∈ votes ∧
      ∀ v ∈ votes, Dominates votes c v := by
  obtain ⟨v, l, rfl⟩ := List.exists_cons_of_ne_nil hne
  obtain ⟨c, hc, hmem, hcv, hall⟩ := foldl_voteStep_from_some (v :: l) l v
  refine ⟨c, ?_, hmem, ?_⟩
  · rw [pluralityVote, List.foldl_cons]
    exact hc
  · intro w hw
    rcases List.mem_cons.mp hw with rfl | hw
    · exact hcv
    · exact hall w hw

/-- C1: on a trained ensemble of `K ≥ 1` predictors, `Predict` in
classification mode returns a statistical mode of the `K` individual label
predictions (a vote whose count is maximal among the votes), and in regression
mode returns the arithmetic mean — the sum of the `K` numeric outputs divided
by `K`. -/
theorem Predict_mode_and_mean [LinearOrder β] (e : Ensemble α β)
    (eR : Ensemble α ℚ) (x y : α) (he : e ≠ []) :
    (∃ b, PredictClassify e x = some b ∧ b ∈ votesAt e x ∧
        ∀ v ∈ votesAt e x,
          countLabel (votesAt e x) v ≤ countLabel (votesAt e x) b) ∧
      PredictRegress eR y = (votesAt eR y).sum / eR.length := by
  constructor
  · have hne : votesAt e x ≠ [] := by
      simpa [votesAt, List.map_eq_nil_iff] using he
    obtain ⟨c, hc, hmem, hall⟩ := pluralityVote_spec (votesAt e x) hne
    refine ⟨c, hc, hmem, fun v hv => ?_⟩
    rcases hall v hv with h | ⟨h, -⟩
    · exact h.le
    · exact h.le
  · rw [PredictRegress, ← List.sum_eq_foldl]

theorem Predict_mode_and_mean_witness :
    (∃ b, PredictClassify exampleClassEnsemble 0 = some b ∧
        b ∈ votesAt exampleClassEnsemble 0 ∧
        ∀ v ∈ votesAt exampleClassEnsemble 0,
          countLabel (votesAt exampleClassEnsemble 0) v ≤
            countLabel (votesAt exampleClassEnsemble 0) b) ∧
      PredictRegress exampleRegEnsemble 0 =
        (votesAt exampleRegEnsemble 0).sum / exampleRegEnsemble.length :=
  Predict_mode_and_mean exampleClassEnsemble exampleRegEnsemble 0 0
    (List.cons_ne_nil _ _)

/-- C7: on a trained classification ensemble whose predictors only emit labels
seen in the training data, `Predict` returns a label present in the training
label set, and the documented tie-break resolves ties deterministically toward
the lowest label: any vote tied with the returned label is at least it. -/
theorem PredictClassify_label_mem_and_tiebreak [LinearOrder β]
    (e : Ensemble α β) (dataset : List (γ × β)) (x : α) (he : e ≠ [])
    (hlabels : ∀ p ∈ e, p.1 x ∈ dataset.map Prod.snd) :
    ∃ b, PredictClassify e x = some b ∧ b ∈ dataset.map Prod.snd ∧
      ∀ v ∈ votesAt e x,
        countLabel (votesAt e x) v = countLabel (votesAt e x) b → b ≤ v := by
  have hne : votesAt e x ≠ [] := by
    simpa [votesAt, List.map_eq_nil_iff] using he
  obtain ⟨c, hc, hmem, hall⟩ := pluralityVote_spec (votesAt e x) hne
  refine ⟨c, hc, ?_, ?_⟩
  · obtain ⟨p, hp, rfl⟩ := List.mem_map.mp hmem
    exact hlabels p hp
  · intro v hv htie
    rcases hall v hv with h | ⟨-, hle⟩
    · exact absurd htie (ne_of_lt h)
    · exact hle

theorem oobAccum_spec (rowScore : ℕ × (α × β) → Option ℚ)
    (l : List (ℕ × (α × β))) :
    oobAccum rowScore l =
      (((l.filter fun r => (rowScore r).isSome).map fun r =>
          (rowScore r).getD 0).sum,
       (l.filter fun r => (rowScore r).isSome).length,
       (l.filter fun r => (rowScore r).isNone).length) := by
  induction l with
  | nil => rfl
  | cons r rest ih =>
      cases h : rowScore r with
      | none =>
          have hstep : oobAccum rowScore (r :: rest) =
              ((oobAccum rowScore rest).1, (oobAccum rowScore rest).2.1,
               (oobAccum rowScore rest).2.2 + 1) := by
            simp [oobAccum, h]
          rw [hstep, ih]
          simp [List.filter_cons, h]
      | some q =>
          have hstep : oobAccum rowScore (r :: rest) =
              (q + (oobAccum rowScore rest).1,
               (oobAccum rowScore rest).2.1 + 1,
               (oobAccum rowScore rest).2.2) := by
            simp [oobAccum, h]
          rw [hstep, ih]
          simp [List.filter_cons, h]

theorem classRowScore_isSome [LinearOrder β] (e : Ensemble α β)
    (r : ℕ × (α × β)) :
    (classRowScore e r).isSome = !(oobPredictors e r.1).isEmpty := by
  rw [classRowScore]
  split_ifs <;> simp_all

theorem classRowScore_isNone [LinearOrder β] (e : Ensemble α β)
    (r : ℕ × (α × β)) :
    (classRowScore e r).isNone = (oobPredictors e r.1).isEmpty := by
  rw [classRowScore]
  split_ifs <;> simp_all

theorem regRowScore_isSome (e : Ensemble α ℚ) (r : ℕ × (α × ℚ)) :
    (regRowScore e r).isSome = !(oobPredictors e r.1).isEmpty := by
  rw [regRowScore]
  split_ifs <;> simp_all

theorem regRowScore_isNone (e : Ensemble α ℚ) (r : ℕ × (α × ℚ)) :
    (regRowScore e r).isNone = (oobPredictors e r.1).isEmpty := by
  rw [regRowScore]
  split_ifs <;> simp_all

theorem sum_map_ite_one_zero (p : γ → Bool) (l : List γ) :
    (l.map fun r => if p r then (1 : ℚ) else 0).sum =
      ((l.filter p).length : ℚ) := by
  induction l with
  | nil => simp
  | cons a l ih =>
      by_cases h : p a
      · simp [List.filter_cons, h, ih, add_comm]
      · simp [List.filter_cons, h, ih]

/-- C5: out-of-bag scoring skips exactly the rows whose out-of-bag predictor
subset is empty and reports their count; the returned score averages over only
the rows with a non-empty out-of-bag subset — the accuracy of the aggregated
out-of-bag votes in classification and the mean error of the mean out-of-bag
prediction in regression — and is `none` only when every row was skipped. -/
theorem ComputeOutOfBagScore_skip_policy [LinearOrder β] (e : Ensemble α β)
    (eR : Ensemble α ℚ) (dataset : List (α × β)) (datasetR : List (α × ℚ)) :
    ((ComputeOutOfBagScore e dataset).skipped =
        (oobSkippedRows e dataset).length ∧
      (ComputeOutOfBagScore e dataset).score =
        (if (oobScoredRows e dataset).length = 0 then none
         else some (((oobCorrectRows e dataset).length : ℚ) /
           ((oobScoredRows e dataset).length : ℚ)))) ∧
    ((ComputeOutOfBagScoreReg eR datasetR).skipped =
        (oobSkippedRows eR datasetR).length ∧
      (ComputeOutOfBagScoreReg eR datasetR).score =
        (if (oobScoredRows eR datasetR).length = 0 then none
         else some (((oobScoredRows eR datasetR).map fun r =>
             |((oobPredictors eR r.1).map fun m => m r.2.1).sum /
                (((oobPredictors eR r.1).map fun m => m r.2.1).length : ℚ) -
               r.2.2|).sum /
           ((oobScoredRows eR datasetR).length : ℚ)))) := by
  have hsomeC : dataset.enum.filter (fun r => (classRowScore e r).isSome) =
      oobScoredRows e dataset :=
    List.filter_congr fun r _ => classRowScore_isSome e r
  have hnoneC : dataset.enum.filter (fun r => (classRowScore e r).isNone) =
      oobSkippedRows e dataset :=
    List.filter_congr fun r _ => classRowScore_isNone e r
  have hsomeR : datasetR.enum.filter (fun r => (regRowScore eR r).isSome) =
      oobScoredRows eR datasetR :=
    List.filter_congr fun r _ => regRowScore_isSome eR r
  have hnoneR : datasetR.enum.filter (fun r => (regRowScore eR r).isNone) =
      oobSkippedRows eR datasetR :=
    List.filter_congr fun r _ => regRowScore_isNone eR r
  have hmapC : (oobScoredRows e dataset).map
        (fun r => (classRowScore e r).getD 0) =
      (oobScoredRows e dataset).map
        (fun r => if decide (oobAggregate e r = some r.2.2) then (1 : ℚ)
                  else 0) := by
    refine List.map_congr_left fun r hr => ?_
    have hne : (oobPredictors e r.1).isEmpty = false := by
      have := (List.mem_filter.mp hr).2
      simpa using this
    rw [classRowScore, hne]
    split_ifs with h1 h2 h3 <;> simp_all
  have hmapR : (oobScoredRows eR datasetR).map
        (fun r => (regRowScore eR r).getD 0) =
      (oobScoredRows eR datasetR).map
        (fun r => |((oobPredictors eR r.1).map fun m => m r.2.1).sum /
            (((oobPredictors eR r.1).map fun m => m r.2.1).length : ℚ) -
          r.2.2|) := by
    refine List.map_congr_left fun r hr => ?_
    have hne : (oobPredictors eR r.1).isEmpty = false := by
      have := (List.mem_filter.mp hr).2
      simpa using this
    rw [regRowScore, hne, oobRegMean, ← List.sum_eq_foldl, List.length_map]
    simp
  refine ⟨⟨?_, ?_⟩, ?_, ?_⟩
  · rw [ComputeOutOfBagScore, oobAccum_spec]
    simpa using congrArg List.length hnoneC
  · rw [ComputeOutOfBagScore, oobAccum_spec]
    simp only [hsomeC, hmapC, sum_map_ite_one_zero]
    rfl
  · rw [ComputeOutOfBagScoreReg, oobAccum_spec]
    simpa using congrArg List.length hnoneR
  · rw [ComputeOutOfBagScoreReg, oobAccum_spec]
    simp only [hsomeR, hmapR]

/-- C6: when the single predictor of a one-member ensemble has every dataset
row in its bootstrap sample (it sees the entire dataset, as with
`sampleSize = dataset size` in the degenerate covering draw), out-of-bag
scoring returns the fully-skipped result of the documented policy: no score
and every row counted as skipped. -/
theorem ComputeOutOfBagScore_fully_skipped [LinearOrder β] (m : α → β)
    (s : List ℕ) (dataset : List (α × β))
    (hcover : ∀ i < dataset.length, i ∈ s) :
    ComputeOutOfBagScore [(m, s)] dataset =
      { score := none, skipped := dataset.length } := by
  have hoob : ∀ r ∈ dataset.enum, oobPredictors ([(m, s)] : Ensemble α β) r.1 = [] := by
    intro r hr
    have hlt : r.1 < dataset.length := by
      obtain ⟨i, a⟩ := r
      obtain ⟨h, -⟩ := List.getElem?_eq_some.mp (List.mk_mem_enum_iff_getElem?.mp hr)
      exact h
    have hin : r.1 ∈ s := hcover r.1 hlt
    simp [oobPredictors, hin]
  have hnone : ∀ r ∈ dataset.enum,
      (classRowScore ([(m, s)] : Ensemble α β) r).isNone = true := by
    intro r hr
    rw [classRowScore_isNone, hoob r hr]
    rfl
  have hsome : dataset.enum.filter
      (fun r => (classRowScore ([(m, s)] : Ensemble α β) r).isSome) = [] := by
    rw [List.filter_eq_nil_iff]
    intro r hr
    have := hnone r hr
    simp_all
  have hall : dataset.enum.filter
      (fun r => (classRowScore ([(m, s)] : Ensemble α β) r).isNone) =
      dataset.enum :=
    List.filter_eq_self.mpr hnone
  rw [ComputeOutOfBagScore, oobAccum_spec]
  simp [hsome, hall, List.enum_length]

theorem ComputeOutOfBagScore_fully_skipped_witness :
    ComputeOutOfBagScore [((fun _ => 0 : ℚ → ℕ), [0, 1])]
        [((0 : ℚ), (0 : ℕ)), ((1 : ℚ), (1 : ℕ))] =
      { score := none, skipped := 2 } :=
  ComputeOutOfBagScore_fully_skipped (fun _ => 0) [0, 1]
    [((0 : ℚ), (0 : ℕ)), ((1 : ℚ), (1 : ℕ))] (by decide)

theorem PredictClassify_label_mem_and_tiebreak_witness :
    ∃ b, PredictClassify exampleTieEnsemble 0 = some b ∧
      b ∈ exampleDataset.map Prod.snd ∧
      ∀ v ∈ votesAt exampleTieEnsemble 0,
        countLabel (votesAt exampleTieEnsemble 0) v =
          countLabel (votesAt exampleTieEnsemble 0) b → b ≤ v :=
  PredictClassify_label_mem_and_tiebreak exampleTieEnsemble exampleDataset 0
    (List.cons_ne_nil _ _)
    (by
      intro p hp
      rcases hp with _ | ⟨_, _ | ⟨_, _ | ⟨_, _ | ⟨_, h⟩⟩⟩⟩ <;>
        first
          | exact absurd h (List.not_mem_nil p)
          | simp [exampleDataset])

theorem excludedCount_eq (n : ℕ) (j : Fin n) :
    excludedCount n j = (n - 1) ^ n := by
  rw [excludedCount, ← Fintype.card_subtype]
  rw [Fintype.card_congr (Equiv.subtypePiEquivPi (p := fun _ b => b ≠ j))]
  rw [Fintype.card_fun]
  congr 1
  · rw [Fintype.card_subtype_compl, Fintype.card_subtype_eq, Fintype.card_fin]
  · exact Fintype.card_fin n

/-- C8: for every `n ≥ 1`, the probability that a fixed index is never drawn
into one uniform with-replacement bootstrap sample of size `n` from `n` items
equals `(1 - 1/n)^n`; that quantity tends to `exp (-1)` as `n` grows, a value
strictly between 36.7% and 36.8%. -/
theorem bootstrap_exclusion_probability :
    (∀ n : ℕ, 1 ≤ n → ∀ j : Fin n,
        excludedProb n j = (1 - 1 / (n : ℚ)) ^ n) ∧
      Filter.Tendsto (fun n : ℕ => ((1 : ℝ) - 1 / (n : ℝ)) ^ n) Filter.atTop
        (nhds (Real.exp (-1))) ∧
      0.367 < Real.exp (-1) ∧ Real.exp (-1) < 0.368 := by
  refine ⟨?_, ?_, ?_, ?_⟩
  · intro n hn j
    have hnq : (0 : ℚ) < (n : ℚ) := by exact_mod_cast hn
    rw [excludedProb, excludedCount_eq, Nat.cast_pow, Nat.cast_sub hn,
      Nat.cast_one, one_sub_div hnq.ne', div_pow]
  · have h := tendsto_one_plus_div_pow_exp (-1)
    refine h.congr fun n => ?_
    rw [neg_div, ← sub_eq_add_neg]
  · have h2 := Real.exp_one_lt_d9
    have hpos := Real.exp_pos 1
    have hinv : Real.exp 1 * (Real.exp 1)⁻¹ = 1 := mul_inv_cancel₀ hpos.ne'
    have hinvpos : 0 < (Real.exp 1)⁻¹ := inv_pos.mpr hpos
    rw [Real.exp_neg]
    nlinarith [hinv, h2, hinvpos, hpos]
  · have h1 := Real.exp_one_gt_d9
    have hpos := Real.exp_pos 1
    have hinv : Real.exp 1 * (Real.exp 1)⁻¹ = 1 := mul_inv_cancel₀ hpos.ne'
    have hinvpos : 0 < (Real.exp 1)⁻¹ := inv_pos.mpr hpos
    rw [Real.exp_neg]
    nlinarith [hinv, h1, hinvpos, hpos]

theorem bootstrap_exclusion_probability_witness :
    excludedProb 2 0 = (1 - 1 / (2 : ℚ)) ^ 2 :=
  bootstrap_exclusion_probability.1 2 (by norm_num) 0

end Bagging
